import Mathlib

/-!
Verification of a single-resource movie CRUD service (Flask + SQLAlchemy,
`src/main.py`) against its specification.

The store is modelled as a list of rows (`List MovieModel`), in insertion
order, matching the SQLite table backing `MovieModel`.  Column values parsed
from request bodies are strings at the validation layer (`reqparse` with
`type=str`), so every data field is an `Option String`: `none` models SQL
NULL (a JSON `null` body value, or an unset optional argument).  The
database-level column constraints of `MovieModel` (`primary_key` on `id`,
`unique=True, nullable=False` on `name`, `nullable=False` on the rest) are
modelled as checks performed at `db.session.commit()`: a commit that would
violate them raises, producing a 500 response and leaving the store
unchanged, exactly as SQLite's constraint enforcement does.
-/

/-- A row of the `MovieModel` table.  `id` is the integer primary key taken
from the URL path (`<int:movie_id>`, a non-negative integer); the five data
columns hold the string values assigned by the handlers, `none` standing for
SQL NULL. -/
structure MovieModel where
  id : Nat
  name : Option String
  imdb_rating : Option String
  genre : Option String
  actors : Option String
  director : Option String
deriving Repr, DecidableEq

/-- The persistent table, in row insertion order. -/
abbrev Store := List MovieModel

/-- One field of an incoming JSON body: absent from the body, explicit
`null`, or a string value. -/
inductive JsonField where
  | absent
  | null
  | str (s : String)
deriving Repr, DecidableEq

/-- The raw request body: the five recognised fields, each possibly absent
or null. -/
structure RawBody where
  name : JsonField
  imdb_rating : JsonField
  genre : JsonField
  actors : JsonField
  director : JsonField
deriving Repr, DecidableEq

/-- The dictionary produced by `reqparse` argument parsing: each argument is
`None` (absent or JSON null) or a string. -/
structure MovieArgs where
  name : Option String
  imdb_rating : Option String
  genre : Option String
  actors : Option String
  director : Option String
deriving Repr, DecidableEq

/-- One `required=True` argument of the PUT parser: a missing field aborts
parsing with the argument's `help` message; JSON `null` is accepted
(`nullable=True` is the `reqparse` default) and parses to `None`. -/
def parseRequired (f : JsonField) (help : String) : Except String (Option String) :=
  match f with
  | .absent => .error help
  | .null => .ok none
  | .str s => .ok (some s)

/-- One optional argument of the PATCH parser: absent and `null` both
parse to `None`. -/
def parseField (f : JsonField) : Option String :=
  match f with
  | .absent => none
  | .null => none
  | .str s => some s

/-- `movie_put_args.parse_args()`: all five fields required, aborting with
the help message of the first missing field (arguments are checked in the
order they were added). -/
def movie_put_args (b : RawBody) : Except String MovieArgs :=
  match parseRequired b.name "Name of the movie is required" with
  | .error e => .error e
  | .ok name =>
    match parseRequired b.imdb_rating "IMDB rating of the movie is required" with
    | .error e => .error e
    | .ok imdb_rating =>
      match parseRequired b.genre "Genre of the movie is required" with
      | .error e => .error e
      | .ok genre =>
        match parseRequired b.actors "Actors of the movie are required" with
        | .error e => .error e
        | .ok actors =>
          match parseRequired b.director "Director of the movie is required" with
          | .error e => .error e
          | .ok director => .ok ⟨name, imdb_rating, genre, actors, director⟩

/-- `movie_update_args.parse_args()`: every field optional, absent fields
defaulting to `None`. -/
def movie_update_args (b : RawBody) : MovieArgs :=
  ⟨parseField b.name, parseField b.imdb_rating, parseField b.genre,
   parseField b.actors, parseField b.director⟩

/-- An HTTP response: a marshalled movie row with a status code, an error
with a status code and message, or a bare status code (the DELETE success
path returns the integer 200). -/
inductive Resp where
  | movie (status : Nat) (m : MovieModel)
  | failure (status : Nat) (message : String)
  | plain (status : Nat)
deriving Repr, DecidableEq

/-- NOT NULL column constraints of `MovieModel`: the five data columns are
`nullable=False`. -/
def rowOk (m : MovieModel) : Bool :=
  m.name.isSome && m.imdb_rating.isSome && m.genre.isSome &&
    m.actors.isSome && m.director.isSome

/-- Constraint check performed by the database when committing an INSERT of
row `m` into `store`: NOT NULL on the data columns, primary-key uniqueness
of `id`, and uniqueness of `name`. -/
def insertOk (store : Store) (m : MovieModel) : Bool :=
  rowOk m && store.all (fun r => r.id != m.id) && store.all (fun r => r.name != m.name)

/-- Splits the store at the first row whose `id` matches, returning the rows
before it, the row itself, and the rows after it.  `none` when no row
matches.  This is `MovieModel.query.filter_by(id=movie_id).first()` together
with the position of the found row. -/
def splitFirst (store : Store) (movie_id : Nat) :
    Option (Store × MovieModel × Store) :=
  match store with
  | [] => none
  | m :: rest =>
    if m.id == movie_id then some ([], m, rest)
    else
      match splitFirst rest movie_id with
      | none => none
      | some (pre, x, post) => some (m :: pre, x, post)

/-- Python truthiness of a parsed argument value: `None` and the empty
string are falsy, any other string is truthy. -/
def truthy (o : Option String) : Bool :=
  match o with
  | none => false
  | some s => s != ""

/-- The field updates of the PATCH handler: each of the five data columns is
overwritten exactly when the corresponding parsed argument is truthy. -/
def applyUpdates (m : MovieModel) (args : MovieArgs) : MovieModel :=
  { m with
    name := if truthy args.name then args.name else m.name
    imdb_rating := if truthy args.imdb_rating then args.imdb_rating else m.imdb_rating
    genre := if truthy args.genre then args.genre else m.genre
    actors := if truthy args.actors then args.actors else m.actors
    director := if truthy args.director then args.director else m.director }

/-- `Movie.get`: look the row up by id; 404 if absent, otherwise the row
marshalled with status 200.  The store is never modified. -/
def Movie.get (store : Store) (movie_id : Nat) : Resp × Store :=
  match store.find? (fun m => m.id == movie_id) with
  | none => (.failure 404 "Couldn\x27t find movie with given ID", store)
  | some result => (.movie 200 result, store)

/-- `Movie.put`: parse the required arguments, query by id and by name,
abort 409 on a taken id (checked first) or a taken name, otherwise insert
the new row and return it with status 201.  A commit violating the column
constraints raises, which surfaces as a 500 response with no row
inserted. -/
def Movie.put (store : Store) (movie_id : Nat) (body : RawBody) : Resp × Store :=
  match movie_put_args body with
  | .error msg => (.failure 400 msg, store)
  | .ok args =>
    let id_result := store.find? (fun m => m.id == movie_id)
    let name_result := store.filter (fun m => m.name == args.name)
    if id_result.isSome then
      (.failure 409 "Movie id already taken", store)
    else if !name_result.isEmpty then
      (.failure 409 "Movie name already taken", store)
    else
      let movie : MovieModel :=
        ⟨movie_id, args.name, args.imdb_rating, args.genre, args.actors, args.director⟩
      if insertOk store movie then
        (.movie 201 movie, store ++ [movie])
      else
        (.failure 500 "Internal Server Error", store)

/-- `Movie.patch`: parse the optional arguments, query by id and by the
parsed `name` argument, abort 404 when the id is absent, 409 when the name
query matches, otherwise overwrite the truthy-supplied fields and commit.
A commit violating the column constraints (NOT NULL, `name` unique against
the other rows) raises, surfacing as 500 with the store unchanged. -/
def Movie.patch (store : Store) (movie_id : Nat) (body : RawBody) : Resp × Store :=
  let args := movie_update_args body
  let name_result := store.filter (fun m => m.name == args.name)
  match splitFirst store movie_id with
  | none => (.failure 404 "Couldn\x27t find movie with given ID", store)
  | some (pre, result, post) =>
    if !name_result.isEmpty then
      (.failure 409 "Name of the movie already used", store)
    else
      let updated := applyUpdates result args
      if rowOk updated && (pre ++ post).all (fun r => r.name != updated.name) then
        (.movie 200 updated, pre ++ updated :: post)
      else
        (.failure 500 "Internal Server Error", store)

/-- `Movie.delete`: look the row up by id; 404 if absent, otherwise delete
exactly that row and return the bare status 200. -/
def Movie.delete (store : Store) (movie_id : Nat) : Resp × Store :=
  match splitFirst store movie_id with
  | none => (.failure 404 "Couldn\x27t find movie with given ID", store)
  | some (pre, _, post) => (.plain 200, pre ++ post)

/-- A single HTTP request against the `/movie/<int:movie_id>` resource. -/
inductive Request where
  | get (movie_id : Nat)
  | put (movie_id : Nat) (body : RawBody)
  | patch (movie_id : Nat) (body : RawBody)
  | delete (movie_id : Nat)
deriving Repr, DecidableEq

/-- Dispatch of one request to its verb handler. -/
def step (store : Store) (r : Request) : Resp × Store :=
  match r with
  | .get i => Movie.get store i
  | .put i b => Movie.put store i b
  | .patch i b => Movie.patch store i b
  | .delete i => Movie.delete store i

/-- The stores reachable from the empty table (the state on first start,
`db.create_all()`) by any finite sequence of requests. -/
inductive Reachable : Store → Prop where
  | init : Reachable []
  | next {s : Store} (r : Request) : Reachable s → Reachable (step s r).2

/-- A row with the given id exists in the store. -/
def present (store : Store) (movie_id : Nat) : Bool :=
  store.any (fun m => m.id == movie_id)

/-- The store invariant claimed by the specification: ids pairwise distinct,
names pairwise distinct, and every row's five data columns non-null. -/
def storeInv (s : Store) : Prop :=
  s.Pairwise (fun a b => a.id ≠ b.id) ∧
  s.Pairwise (fun a b => a.name ≠ b.name) ∧
  ∀ m ∈ s, rowOk m = true

instance : DecidablePred storeInv := fun s => by
  unfold storeInv
  infer_instance

/-! ### Basic lemmas about the store model -/

theorem splitFirst_eq_some : ∀ {s : Store} {i : Nat} {pre post : Store} {m : MovieModel},
    splitFirst s i = some (pre, m, post) →
    s = pre ++ m :: post ∧ m.id = i ∧ ∀ r ∈ pre, r.id ≠ i := by
  intro s
  induction s with
  | nil => intro i pre post m h; simp [splitFirst] at h
  | cons a rest ih =>
    intro i pre post m h
    rw [splitFirst] at h
    by_cases ha : a.id = i
    · simp [ha] at h
      obtain ⟨h1, h2, h3⟩ := h
      subst h1; subst h2; subst h3
      simp [ha]
    · have hbeq : (a.id == i) = false := by simp [ha]
      rw [hbeq] at h
      simp only [Bool.false_eq_true, if_false] at h
      cases hs : splitFirst rest i with
      | none => rw [hs] at h; simp at h
      | some triple =>
        obtain ⟨p, x, q⟩ := triple
        rw [hs] at h
        simp only [Option.some.injEq, Prod.mk.injEq] at h
        obtain ⟨h1, h2, h3⟩ := h
        obtain ⟨hr, hx, hp⟩ := ih hs
        subst h2; subst h3
        constructor
        · rw [← h1]; simp [hr]
        · refine ⟨hx, ?_⟩
          intro r hrmem
          rw [← h1] at hrmem
          rcases List.mem_cons.mp hrmem with h' | h'
          · subst h'; exact ha
          · exact hp r h'

theorem splitFirst_eq_none : ∀ {s : Store} {i : Nat},
    splitFirst s i = none ↔ ∀ r ∈ s, r.id ≠ i := by
  intro s
  induction s with
  | nil => intro i; simp [splitFirst]
  | cons a rest ih =>
    intro i
    rw [splitFirst]
    by_cases ha : a.id = i
    · simp [ha]
    · have hbeq : (a.id == i) = false := by simp [ha]
      rw [hbeq]
      simp only [Bool.false_eq_true, if_false]
      constructor
      · intro h
        cases hs : splitFirst rest i with
        | none =>
          intro r hr
          rcases List.mem_cons.mp hr with h' | h'
          · subst h'; exact ha
          · exact ih.mp hs r h'
        | some triple => obtain ⟨p, x, q⟩ := triple; rw [hs] at h; simp at h
      · intro h
        have : splitFirst rest i = none := ih.mpr fun r hr => h r (List.mem_cons_of_mem a hr)
        rw [this]

theorem present_eq_true_iff {s : Store} {i : Nat} :
    present s i = true ↔ ∃ r ∈ s, r.id = i := by
  simp [present, List.any_eq_true]

theorem present_eq_false_iff {s : Store} {i : Nat} :
    present s i = false ↔ ∀ r ∈ s, r.id ≠ i := by
  simp [present, List.any_eq_false]

theorem find?_id_eq_none_iff {s : Store} {i : Nat} :
    s.find? (fun m => m.id == i) = none ↔ ∀ r ∈ s, r.id ≠ i := by
  rw [List.find?_eq_none]
  simp

theorem find?_append_of_forall_not {p : MovieModel → Bool} {l₁ l₂ : Store}
    (h : ∀ r ∈ l₁, ¬ p r = true) : (l₁ ++ l₂).find? p = l₂.find? p := by
  rw [List.find?_append, List.find?_eq_none.mpr h]
  rfl

theorem applyUpdates_id (m : MovieModel) (args : MovieArgs) :
    (applyUpdates m args).id = m.id := rfl

/-! ### Preservation of the store invariant by every handler -/

theorem insertOk_spec {s : Store} {m : MovieModel} (h : insertOk s m = true) :
    rowOk m = true ∧ (∀ r ∈ s, r.id ≠ m.id) ∧ ∀ r ∈ s, r.name ≠ m.name := by
  rw [insertOk, Bool.and_eq_true, Bool.and_eq_true] at h
  obtain ⟨⟨h1, h2⟩, h3⟩ := h
  refine ⟨h1, ?_, ?_⟩
  · intro r hr
    exact bne_iff_ne.mp (List.all_eq_true.mp h2 r hr)
  · intro r hr
    exact bne_iff_ne.mp (List.all_eq_true.mp h3 r hr)

theorem storeInv_append_singleton {s : Store} {m : MovieModel} (h : storeInv s)
    (hok : insertOk s m = true) : storeInv (s ++ [m]) := by
  obtain ⟨hrow, hids, hnames⟩ := insertOk_spec hok
  obtain ⟨h1, h2, h3⟩ := h
  refine ⟨?_, ?_, ?_⟩
  · rw [List.pairwise_append]
    refine ⟨h1, List.pairwise_singleton _ _, ?_⟩
    intro a ha b hb
    rw [List.mem_singleton] at hb
    subst hb
    exact hids a ha
  · rw [List.pairwise_append]
    refine ⟨h2, List.pairwise_singleton _ _, ?_⟩
    intro a ha b hb
    rw [List.mem_singleton] at hb
    subst hb
    exact hnames a ha
  · intro r hr
    rcases List.mem_append.mp hr with h' | h'
    · exact h3 r h'
    · rw [List.mem_singleton] at h'
      subst h'
      exact hrow

theorem storeInv_replace {pre post : Store} {m m' : MovieModel}
    (h : storeInv (pre ++ m :: post)) (hid : m'.id = m.id)
    (hrow : rowOk m' = true)
    (hname : ∀ r ∈ pre ++ post, r.name ≠ m'.name) :
    storeInv (pre ++ m' :: post) := by
  obtain ⟨h1, h2, h3⟩ := h
  rw [List.pairwise_append, List.pairwise_cons] at h1 h2
  obtain ⟨h1pre, ⟨h1m, h1post⟩, h1cross⟩ := h1
  obtain ⟨h2pre, ⟨_, h2post⟩, h2cross⟩ := h2
  refine ⟨?_, ?_, ?_⟩
  · rw [List.pairwise_append, List.pairwise_cons]
    refine ⟨h1pre, ⟨?_, h1post⟩, ?_⟩
    · intro b hb
      rw [hid]
      exact h1m b hb
    · intro a ha b hb
      rcases List.mem_cons.mp hb with h' | h'
      · subst h'
        rw [hid]
        exact h1cross a ha m (List.mem_cons_self m post)
      · exact h1cross a ha b (List.mem_cons_of_mem m h')
  · rw [List.pairwise_append, List.pairwise_cons]
    refine ⟨h2pre, ⟨?_, h2post⟩, ?_⟩
    · intro b hb
      exact fun he => hname b (List.mem_append.mpr (Or.inr hb)) he.symm
    · intro a ha b hb
      rcases List.mem_cons.mp hb with h' | h'
      · subst h'
        exact hname a (List.mem_append.mpr (Or.inl ha))
      · exact h2cross a ha b (List.mem_cons_of_mem m h')
  · intro r hr
    rcases List.mem_append.mp hr with h' | h'
    · exact h3 r (List.mem_append.mpr (Or.inl h'))
    · rcases List.mem_cons.mp h' with h'' | h''
      · subst h''
        exact hrow
      · exact h3 r (List.mem_append.mpr (Or.inr (List.mem_cons_of_mem m h'')))

theorem storeInv_get {s : Store} {i : Nat} (h : storeInv s) :
    storeInv (Movie.get s i).2 := by
  unfold Movie.get
  split <;> exact h

theorem storeInv_put {s : Store} {i : Nat} {b : RawBody} (h : storeInv s) :
    storeInv (Movie.put s i b).2 := by
  unfold Movie.put
  split
  · exact h
  · dsimp only
    split
    · exact h
    · split
      · exact h
      · split
        next hok => exact storeInv_append_singleton h hok
        next => exact h

theorem storeInv_patch {s : Store} {i : Nat} {b : RawBody} (h : storeInv s) :
    storeInv (Movie.patch s i b).2 := by
  unfold Movie.patch
  dsimp only
  split
  · exact h
  next pre result post hsplit =>
    split
    · exact h
    · split
      next hcommit =>
        obtain ⟨hs, hid, _⟩ := splitFirst_eq_some hsplit
        subst hs
        rw [Bool.and_eq_true] at hcommit
        obtain ⟨hrow, hall⟩ := hcommit
        refine storeInv_replace h (applyUpdates_id result _) hrow ?_
        intro r hr
        exact bne_iff_ne.mp (List.all_eq_true.mp hall r hr)
      next => exact h

theorem storeInv_delete {s : Store} {i : Nat} (h : storeInv s) :
    storeInv (Movie.delete s i).2 := by
  unfold Movie.delete
  split
  · exact h
  next pre m post hsplit =>
    obtain ⟨hs, _, _⟩ := splitFirst_eq_some hsplit
    subst hs
    have hsub : List.Sublist (pre ++ post) (pre ++ m :: post) :=
      List.Sublist.append_left (List.sublist_cons_self m post) pre
    obtain ⟨h1, h2, h3⟩ := h
    exact ⟨List.Pairwise.sublist hsub h1, List.Pairwise.sublist hsub h2,
      fun r hr => h3 r (List.Sublist.mem hr hsub)⟩

theorem storeInv_step {s : Store} (h : storeInv s) (r : Request) :
    storeInv (step s r).2 := by
  cases r with
  | get i => exact storeInv_get h
  | put i b => exact storeInv_put h
  | patch i b => exact storeInv_patch h
  | delete i => exact storeInv_delete h

/-! ### Further shared lemmas -/

theorem find?_id_isSome_iff {s : Store} {i : Nat} :
    (s.find? (fun m => m.id == i)).isSome = true ↔ present s i = true := by
  rw [List.find?_isSome]
  simp [present, List.any_eq_true]

theorem splitFirst_of_present {s : Store} {i : Nat} (h : present s i = true) :
    ∃ pre m post, splitFirst s i = some (pre, m, post) := by
  cases hs : splitFirst s i with
  | none =>
    obtain ⟨r, hr, hri⟩ := present_eq_true_iff.mp h
    exact absurd hri (splitFirst_eq_none.mp hs r hr)
  | some triple =>
    obtain ⟨pre, m, post⟩ := triple
    exact ⟨pre, m, post, rfl⟩

theorem find?_id_of_mem {s : Store} {m : MovieModel} {i : Nat}
    (hpair : s.Pairwise (fun a b => a.id ≠ b.id)) (hm : m ∈ s) (hid : m.id = i) :
    s.find? (fun r => r.id == i) = some m := by
  induction s with
  | nil => cases hm
  | cons a rest ih =>
    rw [List.pairwise_cons] at hpair
    rcases List.mem_cons.mp hm with h' | h'
    · subst h'
      exact List.find?_cons_of_pos rest (by simp [hid])
    · have hne : a.id ≠ i := fun he => hpair.1 m h' (he.trans hid.symm)
      rw [List.find?_cons_of_neg rest (by simp [hne])]
      exact ih hpair.2 h'

theorem rowOk_parts {m : MovieModel} (h : rowOk m = true) :
    m.name.isSome = true ∧ m.imdb_rating.isSome = true ∧ m.genre.isSome = true ∧
      m.actors.isSome = true ∧ m.director.isSome = true := by
  rw [rowOk] at h
  simp only [Bool.and_eq_true] at h
  exact ⟨h.1.1.1.1, h.1.1.1.2, h.1.1.2, h.1.2, h.2⟩

/-- A concrete movie row used to instantiate theorems with hypotheses. -/
def demoMovie : MovieModel :=
  ⟨1, some "Inception", some "9", some "Thriller", some "Cast", some "Nolan"⟩

/-- A concrete valid create body matching `demoMovie`. -/
def demoBody : RawBody :=
  ⟨.str "Inception", .str "9", .str "Thriller", .str "Cast", .str "Nolan"⟩

/-! ### The claims -/

/-- C1: after every finite sequence of GET/PUT/PATCH/DELETE requests starting
from the empty store, no two rows share an id, no two rows share a name, and
every stored row has non-null name, imdb_rating, genre, actors and
director. -/
theorem reachable_store_invariant {s : Store} (h : Reachable s) : storeInv s := by
  induction h with
  | init => exact ⟨List.Pairwise.nil, List.Pairwise.nil, fun m hm => absurd hm (List.not_mem_nil m)⟩
  | next r _ ih => exact storeInv_step ih r

/-- C1 witness: the invariant holds for the concrete store reached by one
successful PUT from the empty store. -/
theorem reachable_store_invariant_witness :
    storeInv (step [] (Request.put 1 demoBody)).2 :=
  reachable_store_invariant (Reachable.next (Request.put 1 demoBody) Reachable.init)

/-- C8: GET returns 200 with exactly the stored row's six fields when a row
with the requested id exists, 404 with the fixed message when none does, and
never modifies the store. -/
theorem get_behavior (s : Store) (i : Nat) (hinv : storeInv s) :
    (present s i = false →
      Movie.get s i = (.failure 404 "Couldn\x27t find movie with given ID", s)) ∧
    (∀ m ∈ s, m.id = i → Movie.get s i = (.movie 200 m, s)) ∧
    (Movie.get s i).2 = s := by
  refine ⟨?_, ?_, ?_⟩
  · intro habs
    have hnone : s.find? (fun m => m.id == i) = none :=
      find?_id_eq_none_iff.mpr (present_eq_false_iff.mp habs)
    unfold Movie.get
    rw [hnone]
  · intro m hm hid
    have hfind : s.find? (fun r => r.id == i) = some m :=
      find?_id_of_mem hinv.1 hm hid
    unfold Movie.get
    rw [hfind]
  · unfold Movie.get
    split <;> rfl

/-- C8 witness: GET at the stored id returns the row with 200; GET at an
unused id returns the 404 message; the store hypothesis and the membership
hypotheses are discharged on a concrete one-row store. -/
theorem get_behavior_witness :
    Movie.get [demoMovie] 1 = (.movie 200 demoMovie, [demoMovie]) ∧
    Movie.get [demoMovie] 2 =
      (.failure 404 "Couldn\x27t find movie with given ID", [demoMovie]) := by
  refine ⟨(get_behavior [demoMovie] 1 (by decide)).2.1 demoMovie (by simp) rfl, ?_⟩
  exact (get_behavior [demoMovie] 2 (by decide)).1 (by decide)

/-- C7: DELETE on an absent id fails 404 with the fixed message leaving the
store unchanged; DELETE on a present id removes exactly that row (all other
rows unchanged, in order), returns the bare status 200, and a subsequent GET
on that id answers 404. -/
theorem delete_behavior (s : Store) (i : Nat) (hinv : storeInv s) :
    (present s i = false →
      Movie.delete s i = (.failure 404 "Couldn\x27t find movie with given ID", s)) ∧
    (∀ m ∈ s, m.id = i → ∃ pre post, s = pre ++ m :: post ∧
      Movie.delete s i = (.plain 200, pre ++ post) ∧
      (Movie.get (pre ++ post) i).1 =
        .failure 404 "Couldn\x27t find movie with given ID") := by
  constructor
  · intro habs
    have hnone : splitFirst s i = none :=
      splitFirst_eq_none.mpr (present_eq_false_iff.mp habs)
    unfold Movie.delete
    rw [hnone]
  · intro m hm hid
    have hpres : present s i = true := present_eq_true_iff.mpr ⟨m, hm, hid⟩
    obtain ⟨pre, m', post, hsp⟩ := splitFirst_of_present hpres
    obtain ⟨hs, hid', hpre⟩ := splitFirst_eq_some hsp
    have hpair := hinv.1
    rw [hs, List.pairwise_append, List.pairwise_cons] at hpair
    have hpost : ∀ r ∈ post, r.id ≠ i := by
      intro r hr he
      exact hpair.2.1.1 r hr (hid'.trans he.symm)
    have hmm : m = m' := by
      rw [hs] at hm
      rcases List.mem_append.mp hm with h' | h'
      · exact absurd hid (hpre m h')
      · rcases List.mem_cons.mp h' with h'' | h''
        · exact h''
        · exact absurd hid (hpost m h'')
    subst hmm
    refine ⟨pre, post, hs, ?_, ?_⟩
    · unfold Movie.delete
      rw [hsp]
    · have hnone : (pre ++ post).find? (fun r => r.id == i) = none := by
        rw [find?_id_eq_none_iff]
        intro r hr
        rcases List.mem_append.mp hr with h' | h'
        · exact hpre r h'
        · exact hpost r h'
      unfold Movie.get
      rw [hnone]

/-- C7 witness: on a concrete one-row store, DELETE of an unused id answers
404 and DELETE of the stored id removes the row, answers 200, and a GET on
the emptied store answers 404. -/
theorem delete_behavior_witness :
    Movie.delete [demoMovie] 2 =
      (.failure 404 "Couldn\x27t find movie with given ID", [demoMovie]) ∧
    ∃ pre post, [demoMovie] = pre ++ demoMovie :: post ∧
      Movie.delete [demoMovie] 1 = (.plain 200, pre ++ post) ∧
      (Movie.get (pre ++ post) 1).1 =
        .failure 404 "Couldn\x27t find movie with given ID" := by
  refine ⟨(delete_behavior [demoMovie] 2 (by decide)).1 (by decide), ?_⟩
  exact (delete_behavior [demoMovie] 1 (by decide)).2 demoMovie (by simp) rfl

theorem find?_id_isSome_eq_present {s : Store} {i : Nat} :
    (s.find? (fun m => m.id == i)).isSome = present s i := by
  cases hp : present s i
  · rw [find?_id_eq_none_iff.mpr (present_eq_false_iff.mp hp)]
    rfl
  · exact find?_id_isSome_iff.mpr hp

theorem filter_name_nonempty {s : Store} {q : Option String} {r : MovieModel}
    (hr : r ∈ s) (hq : r.name = q) :
    (s.filter (fun m => m.name == q)).isEmpty = false := by
  cases hf : (s.filter (fun m => m.name == q)).isEmpty
  · rfl
  · exfalso
    have hnil := List.isEmpty_iff.mp hf
    have := List.filter_eq_nil_iff.mp hnil r hr
    simp [hq] at this

theorem filter_name_empty {s : Store} {q : Option String}
    (h : ∀ r ∈ s, r.name ≠ q) : s.filter (fun m => m.name == q) = [] :=
  List.filter_eq_nil_iff.mpr fun r hr => by simp [h r hr]

/-- C2: for a valid create body, PUT answers 409 "Movie id already taken"
whenever the id is taken (even when the name is also taken, the id check
coming first), 409 "Movie name already taken" when the id is free but the
name is taken, and on every non-201 outcome the store is unchanged. -/
theorem put_conflicts (s : Store) (i : Nat) (n ir g a d : String) :
    (present s i = true →
      Movie.put s i ⟨.str n, .str ir, .str g, .str a, .str d⟩ =
        (.failure 409 "Movie id already taken", s)) ∧
    ((present s i = false ∧ ∃ r ∈ s, r.name = some n) →
      Movie.put s i ⟨.str n, .str ir, .str g, .str a, .str d⟩ =
        (.failure 409 "Movie name already taken", s)) ∧
    (∀ resp s', Movie.put s i ⟨.str n, .str ir, .str g, .str a, .str d⟩ = (resp, s') →
      (∀ m, resp ≠ .movie 201 m) → s' = s) := by
  have hargs : movie_put_args ⟨.str n, .str ir, .str g, .str a, .str d⟩ =
      .ok ⟨some n, some ir, some g, some a, some d⟩ := rfl
  refine ⟨?_, ?_, ?_⟩
  · intro hpres
    unfold Movie.put
    rw [hargs]
    dsimp only
    rw [find?_id_isSome_eq_present, hpres]
    simp
  · rintro ⟨habs, r, hr, hrname⟩
    unfold Movie.put
    rw [hargs]
    dsimp only
    rw [find?_id_isSome_eq_present, habs]
    have hne : (s.filter (fun m => m.name == some n)).isEmpty = false :=
      filter_name_nonempty hr hrname
    simp [hne]
  · intro resp s' heq hnot
    unfold Movie.put at heq
    rw [hargs] at heq
    dsimp only at heq
    split at heq
    · injection heq with h1 h2
      exact h2.symm
    · split at heq
      · injection heq with h1 h2
        exact h2.symm
      · split at heq
        · injection heq with h1 h2
          exact absurd h1.symm (hnot _)
        · injection heq with h1 h2
          exact h2.symm

/-- C2 witness: on a one-row store, PUT reusing the stored id (and even the
stored name) answers the id-conflict 409, and PUT with a fresh id but the
stored name answers the name-conflict 409, both leaving the store as it
was. -/
theorem put_conflicts_witness :
    Movie.put [demoMovie] 1 demoBody =
      (.failure 409 "Movie id already taken", [demoMovie]) ∧
    Movie.put [demoMovie] 2 demoBody =
      (.failure 409 "Movie name already taken", [demoMovie]) := by
  constructor
  · exact (put_conflicts [demoMovie] 1 "Inception" "9" "Thriller" "Cast" "Nolan").1
      (by decide)
  · exact (put_conflicts [demoMovie] 2 "Inception" "9" "Thriller" "Cast" "Nolan").2.1
      ⟨by decide, demoMovie, by simp, rfl⟩

/-- C3: PATCH on an existing id whose body supplies a name carried by any
stored row (the target row included) answers 409 "Name of the movie already
used" and leaves the store unchanged. -/
theorem patch_name_conflict (s : Store) (i : Nat) (b : RawBody) (nm : String)
    (hpresent : present s i = true) (hname : b.name = .str nm)
    (hexists : ∃ r ∈ s, r.name = some nm) :
    Movie.patch s i b = (.failure 409 "Name of the movie already used", s) := by
  obtain ⟨r, hr, hrname⟩ := hexists
  obtain ⟨pre, m, post, hsp⟩ := splitFirst_of_present hpresent
  have hq : (movie_update_args b).name = some nm := by
    simp [movie_update_args, hname, parseField]
  have hne : (s.filter (fun m => m.name == (movie_update_args b).name)).isEmpty = false := by
    rw [hq]
    exact filter_name_nonempty hr hrname
  unfold Movie.patch
  dsimp only
  rw [hsp]
  simp [hne]

/-- C3 witness: patching the stored row with its own current name answers
the 409 name-conflict and keeps the store as it was. -/
theorem patch_name_conflict_witness :
    Movie.patch [demoMovie] 1 ⟨.str "Inception", .absent, .absent, .absent, .absent⟩ =
      (.failure 409 "Name of the movie already used", [demoMovie]) :=
  patch_name_conflict [demoMovie] 1 ⟨.str "Inception", .absent, .absent, .absent, .absent⟩
    "Inception" (by decide) rfl ⟨demoMovie, by simp, rfl⟩

/-- C4: for a fresh id and a valid create body with an unused name, PUT
creates exactly the row built from the path id and the body fields with
status 201, and an immediate GET on that id returns the same six field
values with status 200. -/
theorem put_get_roundtrip (s : Store) (i : Nat) (n ir g a d : String)
    (hid : ∀ r ∈ s, r.id ≠ i) (hname : ∀ r ∈ s, r.name ≠ some n) :
    Movie.put s i ⟨.str n, .str ir, .str g, .str a, .str d⟩ =
      (.movie 201 ⟨i, some n, some ir, some g, some a, some d⟩,
        s ++ [⟨i, some n, some ir, some g, some a, some d⟩]) ∧
    Movie.get (s ++ [⟨i, some n, some ir, some g, some a, some d⟩]) i =
      (.movie 200 ⟨i, some n, some ir, some g, some a, some d⟩,
        s ++ [⟨i, some n, some ir, some g, some a, some d⟩]) := by
  have hargs : movie_put_args ⟨.str n, .str ir, .str g, .str a, .str d⟩ =
      .ok ⟨some n, some ir, some g, some a, some d⟩ := rfl
  have hfind : s.find? (fun m => m.id == i) = none := find?_id_eq_none_iff.mpr hid
  have hfilter : s.filter (fun m => m.name == some n) = [] := filter_name_empty hname
  have hins : insertOk s ⟨i, some n, some ir, some g, some a, some d⟩ = true := by
    rw [insertOk]
    have h2 : s.all (fun r => r.id != i) = true :=
      List.all_eq_true.mpr fun r hr => bne_iff_ne.mpr (hid r hr)
    have h3 : s.all (fun r => r.name != some n) = true :=
      List.all_eq_true.mpr fun r hr => bne_iff_ne.mpr (hname r hr)
    simp [rowOk, h2, h3]
  constructor
  · unfold Movie.put
    rw [hargs]
    dsimp only
    simp [hfind, hfilter, hins]
  · unfold Movie.get
    rw [find?_append_of_forall_not (fun r hr => by simp [hid r hr]),
      List.find?_cons_of_pos _ (by simp)]

/-- C4 witness: creating id 1 in the empty store answers 201 with the built
row, and the immediate GET answers 200 with the same row. -/
theorem put_get_roundtrip_witness :
    Movie.put [] 1 demoBody = (.movie 201 demoMovie, [demoMovie]) ∧
    Movie.get [demoMovie] 1 = (.movie 200 demoMovie, [demoMovie]) :=
  put_get_roundtrip [] 1 "Inception" "9" "Thriller" "Cast" "Nolan"
    (fun r hr => absurd hr (List.not_mem_nil r))
    (fun r hr => absurd hr (List.not_mem_nil r))

/-- C5: every successful PATCH rewrites exactly the first row carrying the
requested id, leaving every row before and after it untouched, and each of
the five data fields is overwritten exactly when the corresponding body
field parsed to a truthy value, keeping its stored value otherwise. -/
theorem patch_frame (s : Store) (i : Nat) (b : RawBody) (m' : MovieModel) (s' : Store)
    (h : Movie.patch s i b = (.movie 200 m', s')) :
    ∃ pre m post, s = pre ++ m :: post ∧ m.id = i ∧ (∀ r ∈ pre, r.id ≠ i) ∧
      s' = pre ++ m' :: post ∧ m'.id = m.id ∧
      m'.name = (if truthy (parseField b.name) then parseField b.name else m.name) ∧
      m'.imdb_rating =
        (if truthy (parseField b.imdb_rating) then parseField b.imdb_rating
         else m.imdb_rating) ∧
      m'.genre = (if truthy (parseField b.genre) then parseField b.genre else m.genre) ∧
      m'.actors = (if truthy (parseField b.actors) then parseField b.actors else m.actors) ∧
      m'.director =
        (if truthy (parseField b.director) then parseField b.director else m.director) := by
  unfold Movie.patch at h
  dsimp only at h
  split at h
  · exact absurd (congrArg Prod.fst h) (by simp)
  next pre result post hsp =>
    split at h
    · exact absurd (congrArg Prod.fst h) (by simp)
    · split at h
      · obtain ⟨hs, hid', hpre⟩ := splitFirst_eq_some hsp
        injection h with h1 h2
        injection h1 with _ hupd
        subst hupd
        subst h2
        exact ⟨pre, result, post, hs, hid', hpre, rfl, rfl, rfl, rfl, rfl, rfl, rfl⟩
      · exact absurd (congrArg Prod.fst h) (by simp)

/-- A concrete row equal to `demoMovie` with only the genre replaced. -/
def demoMoviePatched : MovieModel :=
  ⟨1, some "Inception", some "9", some "Drama", some "Cast", some "Nolan"⟩

/-- C5 witness: patching the one-row store with a genre-only body rewrites
only the genre of the stored row, every other field and the row layout
staying as before. -/
theorem patch_frame_witness :
    ∃ pre m post, [demoMovie] = pre ++ m :: post ∧ m.id = 1 ∧ (∀ r ∈ pre, r.id ≠ 1) ∧
      [demoMoviePatched] = pre ++ demoMoviePatched :: post ∧
      demoMoviePatched.id = m.id ∧
      demoMoviePatched.name = m.name ∧
      demoMoviePatched.imdb_rating = m.imdb_rating ∧
      demoMoviePatched.genre = some "Drama" ∧
      demoMoviePatched.actors = m.actors ∧
      demoMoviePatched.director = m.director :=
  patch_frame [demoMovie] 1 ⟨.absent, .absent, .str "Drama", .absent, .absent⟩
    demoMoviePatched [demoMoviePatched] (by decide)

theorem parseRequired_ok {f : JsonField} (h : f ≠ .absent) (help : String) :
    ∃ v, parseRequired f help = .ok v := by
  cases f with
  | absent => exact absurd rfl h
  | null => exact ⟨none, rfl⟩
  | str s => exact ⟨some s, rfl⟩

/-- C6: a PUT body missing any of the five required fields fails with a 400
whose message is the help text naming a missing field, for every store alike
(no lookup depends on it), and the store is unchanged. -/
theorem put_missing_field (s : Store) (i : Nat) (b : RawBody)
    (hmiss : b.name = .absent ∨ b.imdb_rating = .absent ∨ b.genre = .absent ∨
      b.actors = .absent ∨ b.director = .absent) :
    ∃ msg, Movie.put s i b = (.failure 400 msg, s) ∧
      ((b.name = .absent ∧ msg = "Name of the movie is required") ∨
       (b.imdb_rating = .absent ∧ msg = "IMDB rating of the movie is required") ∨
       (b.genre = .absent ∧ msg = "Genre of the movie is required") ∨
       (b.actors = .absent ∧ msg = "Actors of the movie are required") ∨
       (b.director = .absent ∧ msg = "Director of the movie is required")) := by
  have hput : ∀ msg, movie_put_args b = .error msg →
      Movie.put s i b = (.failure 400 msg, s) := by
    intro msg hm
    unfold Movie.put
    rw [hm]
  by_cases hn : b.name = .absent
  · refine ⟨_, hput _ ?_, Or.inl ⟨hn, rfl⟩⟩
    rw [movie_put_args, hn]
    rfl
  · obtain ⟨v1, hv1⟩ := parseRequired_ok hn "Name of the movie is required"
    by_cases h2 : b.imdb_rating = .absent
    · refine ⟨_, hput _ ?_, Or.inr (Or.inl ⟨h2, rfl⟩)⟩
      rw [movie_put_args, hv1, h2]
      rfl
    · obtain ⟨v2, hv2⟩ := parseRequired_ok h2 "IMDB rating of the movie is required"
      by_cases h3 : b.genre = .absent
      · refine ⟨_, hput _ ?_, Or.inr (Or.inr (Or.inl ⟨h3, rfl⟩))⟩
        rw [movie_put_args, hv1, hv2, h3]
        rfl
      · obtain ⟨v3, hv3⟩ := parseRequired_ok h3 "Genre of the movie is required"
        by_cases h4 : b.actors = .absent
        · refine ⟨_, hput _ ?_, Or.inr (Or.inr (Or.inr (Or.inl ⟨h4, rfl⟩)))⟩
          rw [movie_put_args, hv1, hv2, hv3, h4]
          rfl
        · obtain ⟨v4, hv4⟩ := parseRequired_ok h4 "Actors of the movie are required"
          by_cases h5 : b.director = .absent
          · refine ⟨_, hput _ ?_, Or.inr (Or.inr (Or.inr (Or.inr ⟨h5, rfl⟩)))⟩
            rw [movie_put_args, hv1, hv2, hv3, hv4, h5]
            rfl
          · exfalso
            rcases hmiss with h | h | h | h | h <;> contradiction

/-- C6 witness: a body missing only `name` fails against the empty store
with the 400 message naming the name field, inserting nothing. -/
theorem put_missing_field_witness :
    Movie.put [] 1 ⟨.absent, .str "9", .str "Thriller", .str "Cast", .str "Nolan"⟩ =
      (.failure 400 "Name of the movie is required", []) := by
  obtain ⟨msg, hp, hcase⟩ := put_missing_field [] 1
    ⟨.absent, .str "9", .str "Thriller", .str "Cast", .str "Nolan"⟩ (Or.inl rfl)
  rcases hcase with ⟨_, rfl⟩ | ⟨h, _⟩ | ⟨h, _⟩ | ⟨h, _⟩ | ⟨h, _⟩
  · exact hp
  all_goals exact JsonField.noConfusion h

theorem put_store_effect (s : Store) (j : Nat) (b : RawBody) :
    (Movie.put s j b).2 = s ∨
    ∃ mv : MovieModel, mv.id = j ∧ present s j = false ∧
      Movie.put s j b = (.movie 201 mv, s ++ [mv]) := by
  unfold Movie.put
  cases hp : movie_put_args b with
  | error msg => exact Or.inl rfl
  | ok args =>
    dsimp only
    cases hid : (s.find? (fun m => m.id == j)).isSome with
    | true => simp [hid]
    | false =>
      cases hemp : (s.filter (fun m => m.name == args.name)).isEmpty with
      | false => simp [hid, hemp]
      | true =>
        cases hins : insertOk s
            ⟨j, args.name, args.imdb_rating, args.genre, args.actors, args.director⟩ with
        | false => simp [hid, hemp, hins]
        | true =>
          refine Or.inr ⟨⟨j, args.name, args.imdb_rating, args.genre, args.actors,
            args.director⟩, rfl, ?_, ?_⟩
          · rw [← find?_id_isSome_eq_present, hid]
          · simp [hid, hemp, hins]

theorem patch_presence (s : Store) (j : Nat) (b : RawBody) (i : Nat) :
    present (Movie.patch s j b).2 i = present s i := by
  unfold Movie.patch
  dsimp only
  split
  · rfl
  next pre result post hsp =>
    split
    · rfl
    · split
      · obtain ⟨hs, _, _⟩ := splitFirst_eq_some hsp
        subst hs
        simp [present, List.any_append, List.any_cons, applyUpdates_id]
      · rfl

/-- C9: whenever a single request changes whether a row with some id exists,
that request was a successful PUT to exactly that id (Absent to Present,
answering 201) or a successful DELETE of exactly that id (Present to Absent,
answering 200); GET and PATCH never change existence of any id, nor do PUT
and DELETE for ids other than their own. -/
theorem existence_transitions (s : Store) (r : Request) (i : Nat)
    (hch : present (step s r).2 i ≠ present s i) :
    (present (step s r).2 i = true ∧
      ∃ b m, r = Request.put i b ∧ (step s r).1 = Resp.movie 201 m) ∨
    (present (step s r).2 i = false ∧ r = Request.delete i ∧
      (step s r).1 = Resp.plain 200) := by
  cases r with
  | get j =>
    exfalso
    apply hch
    show present (Movie.get s j).2 i = present s i
    unfold Movie.get
    split <;> rfl
  | patch j b => exact absurd (patch_presence s j b i) hch
  | put j b =>
    rcases put_store_effect s j b with hsame | ⟨mv, hmvid, _, hput⟩
    · exact absurd (congrArg (fun t => present t i) hsame) hch
    · have hsnd : (step s (.put j b)).2 = s ++ [mv] := congrArg Prod.snd hput
      have hfst : (step s (.put j b)).1 = .movie 201 mv := congrArg Prod.fst hput
      have hpres2 : present (step s (.put j b)).2 i = (present s i || (mv.id == i)) := by
        rw [hsnd]
        simp [present, List.any_append]
      cases hji : (mv.id == i) with
      | false =>
        exfalso
        apply hch
        rw [hpres2, hji, Bool.or_false]
      | true =>
        have hj : j = i := hmvid.symm.trans (beq_iff_eq.mp hji)
        refine Or.inl ⟨?_, b, mv, by rw [hj], hfst⟩
        rw [hpres2, hji, Bool.or_true]
  | delete j =>
    cases hsp : splitFirst s j with
    | none =>
      exfalso
      apply hch
      show present (Movie.delete s j).2 i = present s i
      unfold Movie.delete
      rw [hsp]
    | some triple =>
      obtain ⟨pre, m, post⟩ := triple
      obtain ⟨hs, hmid, _⟩ := splitFirst_eq_some hsp
      have hdel : Movie.delete s j = (.plain 200, pre ++ post) := by
        unfold Movie.delete
        rw [hsp]
      have hsnd : (step s (.delete j)).2 = pre ++ post := congrArg Prod.snd hdel
      have hfst : (step s (.delete j)).1 = .plain 200 := congrArg Prod.fst hdel
      cases hmi : (m.id == i) with
      | false =>
        exfalso
        apply hch
        rw [hsnd, hs]
        simp [present, List.any_append, List.any_cons, hmi]
      | true =>
        have hji : j = i := hmid.symm.trans (beq_iff_eq.mp hmi)
        cases hpa : pre.any (fun r => r.id == i) with
        | true =>
          exfalso
          apply hch
          rw [hsnd, hs]
          simp [present, List.any_append, List.any_cons, hpa]
        | false =>
          cases hpo : post.any (fun r => r.id == i) with
          | true =>
            exfalso
            apply hch
            rw [hsnd, hs]
            simp [present, List.any_append, List.any_cons, hpo]
          | false =>
            refine Or.inr ⟨?_, by rw [hji], hfst⟩
            rw [hsnd]
            simp [present, List.any_append, hpa, hpo]

/-- C9 witness: the concrete PUT of id 1 into the empty store changes id 1
from Absent to Present, and the theorem attributes it to that PUT with a
201 response. -/
theorem existence_transitions_witness :
    (present (step [] (Request.put 1 demoBody)).2 1 = true ∧
      ∃ b m, Request.put 1 demoBody = Request.put 1 b ∧
        (step [] (Request.put 1 demoBody)).1 = Resp.movie 201 m) ∨
    (present (step [] (Request.put 1 demoBody)).2 1 = false ∧
      Request.put 1 demoBody = Request.delete 1 ∧
      (step [] (Request.put 1 demoBody)).1 = Resp.plain 200) :=
  existence_transitions [] (Request.put 1 demoBody) 1 (by decide)

theorem isSome_update_field {o x : Option String} (hx : x.isSome = true) :
    (if truthy o then o else x).isSome = true := by
  cases o with
  | none => simpa [truthy] using hx
  | some v =>
    cases hv : truthy (some v)
    · simpa [hv] using hx
    · simp [hv]

theorem rowOk_applyUpdates {m : MovieModel} (h : rowOk m = true) (args : MovieArgs) :
    rowOk (applyUpdates m args) = true := by
  obtain ⟨h1, h2, h3, h4, h5⟩ := rowOk_parts h
  rw [rowOk]
  simp [applyUpdates, isSome_update_field h1, isSome_update_field h2,
    isSome_update_field h3, isSome_update_field h4, isSome_update_field h5]

theorem rowOk_name_ne_none {m : MovieModel} (h : rowOk m = true) : m.name ≠ none := by
  intro he
  have h1 := (rowOk_parts h).1
  rw [he] at h1
  exact Bool.false_ne_true h1

/-- C10: a PATCH whose body omits `name` performs the name-uniqueness query
with `None`, which matches no stored row of an invariant-satisfying store
(every stored name is non-null), so on an existing id the request never hits
the 409 name conflict: it always reaches the update and answers 200. -/
theorem patch_omitted_name (s : Store) (i : Nat) (b : RawBody)
    (hinv : storeInv s) (hb : b.name = .absent) (hpresent : present s i = true) :
    s.filter (fun m => m.name == (movie_update_args b).name) = [] ∧
    ∃ m' s', Movie.patch s i b = (.movie 200 m', s') := by
  have hqnone : (movie_update_args b).name = none := by
    simp [movie_update_args, hb, parseField]
  have hfilter : s.filter (fun m => m.name == (movie_update_args b).name) = [] := by
    rw [hqnone]
    exact filter_name_empty fun r hr => rowOk_name_ne_none (hinv.2.2 r hr)
  obtain ⟨pre, result, post, hsp⟩ := splitFirst_of_present hpresent
  obtain ⟨hs, hid', hpre⟩ := splitFirst_eq_some hsp
  have hresmem : result ∈ s := by
    rw [hs]
    exact List.mem_append.mpr (Or.inr (List.mem_cons_self result post))
  have hrowupd : rowOk (applyUpdates result (movie_update_args b)) = true :=
    rowOk_applyUpdates (hinv.2.2 result hresmem) _
  have hupname : (applyUpdates result (movie_update_args b)).name = result.name := by
    simp [applyUpdates, hqnone, truthy]
  have hnames := hinv.2.1
  rw [hs, List.pairwise_append, List.pairwise_cons] at hnames
  have hallupd : (pre ++ post).all
      (fun r => r.name != (applyUpdates result (movie_update_args b)).name) = true := by
    apply List.all_eq_true.mpr
    intro r hr
    apply bne_iff_ne.mpr
    rw [hupname]
    rcases List.mem_append.mp hr with h' | h'
    · exact hnames.2.2 r h' result (List.mem_cons_self result post)
    · exact fun he => hnames.2.1.1 r h' he.symm
  refine ⟨hfilter, applyUpdates result (movie_update_args b),
    pre ++ applyUpdates result (movie_update_args b) :: post, ?_⟩
  unfold Movie.patch
  dsimp only
  rw [hsp]
  simp [hfilter, hrowupd, hallupd]

/-- C10 witness: patching the stored id with a genre-only body (name
omitted) performs the name query with `None`, matches nothing, and succeeds
with 200. -/
theorem patch_omitted_name_witness :
    [demoMovie].filter (fun m => m.name ==
      (movie_update_args ⟨.absent, .absent, .str "Sci-Fi", .absent, .absent⟩).name) = [] ∧
    ∃ m' s', Movie.patch [demoMovie] 1 ⟨.absent, .absent, .str "Sci-Fi", .absent, .absent⟩ =
      (.movie 200 m', s') :=
  patch_omitted_name [demoMovie] 1 ⟨.absent, .absent, .str "Sci-Fi", .absent, .absent⟩
    (by decide) rfl (by decide)
